import Mathlib

/-!
Verification of the snapshot-comparison core of the ecfr-mcp server
(`src/build/index.js`).  The JavaScript values flowing through the core are
modelled shallowly: primitive values as `JVal`, structure-tree nodes as
`JNode`, the insertion-ordered JS `Map` as an association list, and the
differ / date utilities as executable Lean functions translated line by line
from the source.
-/

namespace EcfrMcp

/-- A JavaScript primitive value as it occurs in the structure payloads:
`undefined`, `null`, a string, an (integer) number, or a boolean.
Numbers are modelled as integers; the payload fields compared by the differ
(`label_description`, `reserved`, `received_on`, `size`) are only ever used
for strict (in)equality. -/
inductive JVal where
  | undef
  | null
  | str (s : String)
  | num (n : Int)
  | bool (b : Bool)
deriving DecidableEq, Repr

/-- JavaScript truthiness of a primitive value (`NaN` is outside the model):
`undefined`, `null`, `""`, `0` and `false` are falsy. -/
def JVal.truthy : JVal → Bool
  | .undef => false
  | .null => false
  | .str s => s ≠ ""
  | .num n => n ≠ 0
  | .bool b => b

/-- JavaScript `String(v)` conversion of a primitive value. -/
def JVal.toStr : JVal → String
  | .undef => "undefined"
  | .null => "null"
  | .str s => s
  | .num n => toString n
  | .bool b => if b then "true" else "false"

/-- JavaScript nullish coalescing `a ?? b`. -/
def coalesce (a b : JVal) : JVal :=
  if a = JVal.undef ∨ a = JVal.null then b else a

mutual
/-- A node of a structure document.  `atom v` is any non-object value
(`null`, `undefined`, a primitive); `node` is an object, carrying exactly the
properties the core reads: `type`, `identifier`, `label_description`,
`label`, `reserved`, `received_on`, `size`, `hierarchy?.part` (flattened to
one field, `undefined` when the hierarchy or its part is absent), and
`children`. -/
inductive JNode where
  | atom (v : JVal)
  | node (ty id ld lb rs ro sz hp : JVal) (children : JChildren)

/-- The `children` property of an object node.  `notArray` covers an absent,
null, or otherwise non-array value (everything `Array.isArray` rejects);
`nil`/`cons` is an actual array of child nodes. -/
inductive JChildren where
  | notArray
  | nil
  | cons (hd : JNode) (tl : JChildren)
end

mutual
def JNode.beq : JNode → JNode → Bool
  | .atom v, .atom w => v == w
  | .node a b c d e f g h cs, .node a2 b2 c2 d2 e2 f2 g2 h2 cs2 =>
      a == a2 && b == b2 && c == c2 && d == d2 && e == e2 && f == f2 && g == g2
        && h == h2 && JChildren.beq cs cs2
  | _, _ => false

def JChildren.beq : JChildren → JChildren → Bool
  | .notArray, .notArray => true
  | .nil, .nil => true
  | .cons a as, .cons b bs => JNode.beq a b && JChildren.beq as bs
  | _, _ => false
end

mutual
def JNode.eq_of_beq : ∀ {a b : JNode}, JNode.beq a b = true → a = b
  | .atom v, .atom w, h => by
      simp only [JNode.beq, beq_iff_eq] at h; rw [h]
  | .node a b c d e f g h cs, .node a2 b2 c2 d2 e2 f2 g2 h2 cs2, hb => by
      simp only [JNode.beq, Bool.and_eq_true, beq_iff_eq] at hb
      obtain ⟨⟨⟨⟨⟨⟨⟨⟨h1, h2⟩, h3⟩, h4⟩, h5⟩, h6⟩, h7⟩, h8⟩, h9⟩ := hb
      subst h1; subst h2; subst h3; subst h4; subst h5; subst h6; subst h7; subst h8
      rw [JChildren.eq_of_beq h9]
  | .atom _, .node _ _ _ _ _ _ _ _ _, h => by simp [JNode.beq] at h
  | .node _ _ _ _ _ _ _ _ _, .atom _, h => by simp [JNode.beq] at h

def JChildren.eq_of_beq : ∀ {a b : JChildren}, JChildren.beq a b = true → a = b
  | .notArray, .notArray, _ => rfl
  | .nil, .nil, _ => rfl
  | .cons a as, .cons b bs, h => by
      simp only [JChildren.beq, Bool.and_eq_true] at h
      rw [JNode.eq_of_beq h.1, JChildren.eq_of_beq h.2]
  | .notArray, .nil, h => by simp [JChildren.beq] at h
  | .notArray, .cons _ _, h => by simp [JChildren.beq] at h
  | .nil, .notArray, h => by simp [JChildren.beq] at h
  | .nil, .cons _ _, h => by simp [JChildren.beq] at h
  | .cons _ _, .notArray, h => by simp [JChildren.beq] at h
  | .cons _ _, .nil, h => by simp [JChildren.beq] at h
end

mutual
def JNode.beq_refl : ∀ (a : JNode), JNode.beq a a = true
  | .atom v => by simp [JNode.beq]
  | .node a b c d e f g h cs => by
      simp [JNode.beq, JChildren.beq_refl cs]

def JChildren.beq_refl : ∀ (a : JChildren), JChildren.beq a a = true
  | .notArray => rfl
  | .nil => rfl
  | .cons a as => by simp [JChildren.beq, JNode.beq_refl a, JChildren.beq_refl as]
end

instance : DecidableEq JNode := fun a b =>
  if h : JNode.beq a b = true then
    isTrue (JNode.eq_of_beq h)
  else
    isFalse (fun he => h (he ▸ JNode.beq_refl a))

/-- Property access `node.type` (`undefined` on non-objects, like `node?.type`). -/
def JNode.type : JNode → JVal
  | .atom _ => .undef
  | .node ty _ _ _ _ _ _ _ _ => ty

/-- Property access `node.identifier`. -/
def JNode.identifier : JNode → JVal
  | .atom _ => .undef
  | .node _ id _ _ _ _ _ _ _ => id

/-- Property access `node.label_description`. -/
def JNode.label_description : JNode → JVal
  | .atom _ => .undef
  | .node _ _ ld _ _ _ _ _ _ => ld

/-- Property access `node.label`. -/
def JNode.label : JNode → JVal
  | .atom _ => .undef
  | .node _ _ _ lb _ _ _ _ _ => lb

/-- Property access `node.reserved`. -/
def JNode.reserved : JNode → JVal
  | .atom _ => .undef
  | .node _ _ _ _ rs _ _ _ _ => rs

/-- Property access `node.received_on`. -/
def JNode.received_on : JNode → JVal
  | .atom _ => .undef
  | .node _ _ _ _ _ ro _ _ _ => ro

/-- Property access `node.size`. -/
def JNode.size : JNode → JVal
  | .atom _ => .undef
  | .node _ _ _ _ _ _ sz _ _ => sz

/-- The chained access `node?.hierarchy?.part` (pre-flattened into the model:
`undefined` when the node has no hierarchy or the hierarchy has no part). -/
def JNode.hierarchyPart : JNode → JVal
  | .atom _ => .undef
  | .node _ _ _ _ _ _ _ hp _ => hp

/-- The `children` property of a node (`notArray` on non-objects). -/
def JNode.childrenOf : JNode → JChildren
  | .atom _ => .notArray
  | .node _ _ _ _ _ _ _ _ cs => cs

/-- The guard `node && typeof node === "object"`: true exactly on objects. -/
def JNode.isObj : JNode → Bool
  | .atom _ => false
  | .node _ _ _ _ _ _ _ _ _ => true

/-- JavaScript truthiness of a node value (objects are always truthy). -/
def JNode.truthyN : JNode → Bool
  | .atom v => v.truthy
  | .node _ _ _ _ _ _ _ _ _ => true

/-- The insertion-ordered JS `Map<string, node>`, as an association list in
insertion order. -/
abbrev SMap : Type := List (String × JNode)

/-- `map.set(k, v)`: replace in place if the key is present (keeping its
position), otherwise append at the end. -/
def mapSet (m : SMap) (k : String) (v : JNode) : SMap :=
  if (List.any m fun p => p.1 == k) then
    List.map (fun p => if p.1 == k then (k, v) else p) m
  else
    m ++ [(k, v)]

/-- `map.get(k)`: the value stored at `k`, if any. -/
def mapGet (m : SMap) (k : String) : Option JNode :=
  Option.map Prod.snd (List.find? (fun p => p.1 == k) m)

/-- `map.has(k)`. -/
def mapHas (m : SMap) (k : String) : Bool :=
  (mapGet m k).isSome

/-- The keys of the map, in insertion order. -/
def mapKeys (m : SMap) : List String :=
  List.map Prod.fst m

mutual
/-- `collectSections(node, map)` from `src/build/index.js` lines 60-71:
if the value is an object whose `type` is `"section"` and whose `identifier`
is truthy, store it under `String(identifier)`; then recurse into `children`
whenever that property is an array, regardless of the node's own type. -/
def collectSections (n : JNode) (m : SMap) : SMap :=
  match n with
  | .atom _ => m
  | .node ty id ld lb rs ro sz hp cs =>
      let m1 :=
        if ty == JVal.str "section" && id.truthy then
          mapSet m id.toStr (.node ty id ld lb rs ro sz hp cs)
        else m
      collectChildren cs m1

/-- The `for (const child of node.children)` loop of `collectSections`,
threading the mutable map through the children in order. -/
def collectChildren (cs : JChildren) (m : SMap) : SMap :=
  match cs with
  | .notArray => m
  | .nil => m
  | .cons c rest => collectChildren rest (collectSections c m)
end

/-- `buildSectionMap(structure)` from lines 75-79: flatten a structure tree
into a map from section identifier to node, starting from an empty map. -/
def buildSectionMap (structure0 : JNode) : SMap :=
  collectSections structure0 []

mutual
/-- All nodes of a tree: the root followed by the nodes of every child
(children are walked regardless of the root's own type). -/
def subnodes (n : JNode) : List JNode :=
  match n with
  | .atom v => [.atom v]
  | .node ty id ld lb rs ro sz hp cs =>
      .node ty id ld lb rs ro sz hp cs :: subnodesChildren cs

/-- All nodes appearing in a `children` value. -/
def subnodesChildren (cs : JChildren) : List JNode :=
  match cs with
  | .notArray => []
  | .nil => []
  | .cons c rest => subnodes c ++ subnodesChildren rest
end

/-- A node qualifies for the section map iff its `type` is `"section"` and
its `identifier` is truthy (for a string identifier: non-empty). -/
def isSectionEntry (n : JNode) : Bool :=
  n.type == JVal.str "section" && n.identifier.truthy

/-- Numeric value of a decimal digit character, if it is one. -/
def digitVal (c : Char) : Option Nat :=
  if c.isDigit then some (c.toNat - 48) else none

/-- Parse a strict `YYYY-MM-DD` string to a comparable instant, as
`new Date(value)` does on ISO date strings.  The instant is encoded as
`(y * 12 + (m - 1)) * 31 + (d - 1) : Int`, an order-embedding of the epoch
timestamp for calendar dates (both orders agree with lexicographic string
order on `YYYY-MM-DD`).  Months outside `01..12` or days outside `01..31`
fail the ISO format and yield `none` (an invalid `Date`). -/
def parseYMD (s : String) : Option Int :=
  match s.data with
  | [y1, y2, y3, y4, h1, m1, m2, h2, d1, d2] =>
      if h1 = '-' ∧ h2 = '-' then
        match digitVal y1, digitVal y2, digitVal y3, digitVal y4,
            digitVal m1, digitVal m2, digitVal d1, digitVal d2 with
        | some a, some b, some c, some d, some e, some f, some g, some h =>
            let y := ((a * 10 + b) * 10 + c) * 10 + d
            let mo := e * 10 + f
            let da := g * 10 + h
            if 1 ≤ mo ∧ mo ≤ 12 ∧ 1 ≤ da ∧ da ≤ 31 then
              some (((y * 12 + (mo - 1)) * 31 + (da - 1) : Nat) : Int)
            else none
        | _, _, _, _, _, _, _, _ => none
      else none
  | _ => none

/-- `toDate(value)` from lines 83-88: falsy input (`undefined` or the empty
string) gives `undefined`; otherwise parse, with unparseable input giving
`undefined` (the `Number.isNaN(d.getTime())` check). -/
def toDate (value : Option String) : Option Int :=
  match value with
  | none => none
  | some s => if s = "" then none else parseYMD s

/-- The far-past sentinel `new Date(-8640000000000000)`, which sorts below
every parseable date (its value lies outside the date encoding's range). -/
def farPast : Int := -8640000000000000

/-- The far-future sentinel `new Date(8640000000000000)`, above every
parseable date. -/
def farFuture : Int := 8640000000000000

/-- The comparison logic of `rangesOverlap` on already-parsed dates (lines
112-119): default an absent item start/end to the far-past/far-future
sentinel, then fail if the item ends before a present filter start, or
starts after a present filter end. -/
def overlapCore (fs fe itemS itemE : Option Int) : Bool :=
  let effectiveItemStart := itemS.getD farPast
  let effectiveItemEnd := itemE.getD farFuture
  let endBeforeFilterStart : Bool :=
    match fs with | some f => decide (effectiveItemEnd < f) | none => false
  let startAfterFilterEnd : Bool :=
    match fe with | some f => decide (effectiveItemStart > f) | none => false
  if endBeforeFilterStart then false
  else if startAfterFilterEnd then false
  else true

/-- `rangesOverlap(filterStart, filterEnd, itemStart, itemEnd)` from lines
107-120: parse all four bounds, then compare with open-range defaults. -/
def rangesOverlap (filterStart filterEnd itemStart itemEnd : Option String) : Bool :=
  overlapCore (toDate filterStart) (toDate filterEnd) (toDate itemStart) (toDate itemEnd)

/-- The `start_metadata` / `end_metadata` snapshot of a modified record:
`{received_on, reserved, size}`, each with `?? null` applied. -/
structure Meta where
  received_on : JVal
  reserved : JVal
  size : JVal
deriving DecidableEq, Repr

/-- One change record produced by the differ.  Fields absent on a record in
JavaScript (`heading` on modified records; `description` and the metadata
snapshots on added/removed records) are `none`. -/
structure ChangeRecord where
  type : String
  section_ : String
  citation : String
  part : JVal
  change_date : String
  heading : Option JVal
  description : Option String
  start_metadata : Option Meta
  end_metadata : Option Meta
deriving DecidableEq, Repr

/-- The aggregate counts of a diff result. -/
structure Summary where
  total_changes : Nat
  sections_added : Nat
  sections_removed : Nat
  sections_modified : Nat
deriving DecidableEq, Repr

/-- The `added` record pushed at lines 154-161. -/
def addedRecord (title : Nat) (end_date : String) (part : Option String)
    (id : String) (node : JNode) : ChangeRecord :=
  { type := "added"
    section_ := id
    citation := toString title ++ " CFR " ++ id
    part := (match part with
      | some p => JVal.str p
      | none => coalesce node.hierarchyPart JVal.null)
    change_date := end_date
    heading := some (coalesce node.label_description (coalesce node.label JVal.null))
    description := none
    start_metadata := none
    end_metadata := none }

/-- The `removed` record pushed at lines 166-173: note `part: part ?? null`,
without consulting the node hierarchy. -/
def removedRecord (title : Nat) (end_date : String) (part : Option String)
    (id : String) (node : JNode) : ChangeRecord :=
  { type := "removed"
    section_ := id
    citation := toString title ++ " CFR " ++ id
    part := (match part with | some p => JVal.str p | none => JVal.null)
    change_date := end_date
    heading := some (coalesce node.label_description (coalesce node.label JVal.null))
    description := none
    start_metadata := none
    end_metadata := none }

/-- The strict-inequality test at lines 179-182: any of `label_description`,
`reserved`, `received_on`, `size` differing classifies the pair as modified. -/
def differs (node previous : JNode) : Bool :=
  node.label_description != previous.label_description
    || node.reserved != previous.reserved
    || node.received_on != previous.received_on
    || node.size != previous.size

/-- The `modified` record pushed at lines 184-201: `part: part ?? null`, a
fixed description, and both metadata snapshots. -/
def modifiedRecord (title : Nat) (end_date : String) (part : Option String)
    (id : String) (node previous : JNode) : ChangeRecord :=
  { type := "modified"
    section_ := id
    citation := toString title ++ " CFR " ++ id
    part := (match part with | some p => JVal.str p | none => JVal.null)
    change_date := end_date
    heading := none
    description := some "Section metadata changed between snapshots."
    start_metadata := some
      { received_on := coalesce previous.received_on JVal.null
        reserved := coalesce previous.reserved JVal.null
        size := coalesce previous.size JVal.null }
    end_metadata := some
      { received_on := coalesce node.received_on JVal.null
        reserved := coalesce node.reserved JVal.null
        size := coalesce node.size JVal.null } }

/-- The change-accumulation loops of `diffTitleStructures` (lines 151-204):
one pass over `endMap` pushing `added` records, one pass over `startMap`
pushing `removed` records, and one pass over `endMap` pushing `modified`
records (guarded by `if (previous)`, the truthiness of the looked-up start
node).  `start_date` is only used for fetching in the source and does not
occur in this pure core. -/
def diffChangeList (title : Nat) (end_date : String) (part : Option String)
    (startMap endMap : SMap) : List ChangeRecord :=
  let changes : List ChangeRecord := []
  let changes := List.foldl (fun acc e =>
    if !mapHas startMap e.1 then
      acc ++ [addedRecord title end_date part e.1 e.2]
    else acc) changes endMap
  let changes := List.foldl (fun acc e =>
    if !mapHas endMap e.1 then
      acc ++ [removedRecord title end_date part e.1 e.2]
    else acc) changes startMap
  let changes := List.foldl (fun acc e =>
    match mapGet startMap e.1 with
    | some previous =>
        if previous.truthyN then
          if differs e.2 previous then
            acc ++ [modifiedRecord title end_date part e.1 e.2 previous]
          else acc
        else acc
    | none => acc) changes endMap
  changes

/-- The filtering and summarization tail of `diffTitleStructures` (lines
205-214): keep only the requested change types when `change_types` is
provided (a provided empty array keeps nothing, since arrays are truthy in
JavaScript), then compute all four summary counts over the filtered list. -/
def diffFromMaps (title : Nat) (end_date : String) (part : Option String)
    (change_types : Option (List String)) (startMap endMap : SMap) :
    Summary × List ChangeRecord :=
  let changes := diffChangeList title end_date part startMap endMap
  let filteredChanges :=
    match change_types with
    | some cts => List.filter (fun c => cts.contains c.type) changes
    | none => changes
  ({ total_changes := filteredChanges.length
     sections_added := (List.filter (fun c => c.type == "added") filteredChanges).length
     sections_removed := (List.filter (fun c => c.type == "removed") filteredChanges).length
     sections_modified := (List.filter (fun c => c.type == "modified") filteredChanges).length },
   filteredChanges)

/-- `diffTitleStructures` on the two already-fetched structure documents
(lines 149-215): flatten both snapshots and diff the resulting maps. -/
def diffTitleStructures (title : Nat) (end_date : String) (part : Option String)
    (change_types : Option (List String)) (startStructure endStructure : JNode) :
    Summary × List ChangeRecord :=
  diffFromMaps title end_date part change_types
    (buildSectionMap startStructure) (buildSectionMap endStructure)

/-- JavaScript string comparison `a < b` on character code units
(lexicographic, shorter prefix first). -/
def charsLt : List Char → List Char → Bool
  | [], [] => false
  | [], _ :: _ => true
  | _ :: _, [] => false
  | a :: as, b :: bs =>
      if a.toNat < b.toNat then true
      else if b.toNat < a.toNat then false
      else charsLt as bs

/-- JavaScript string comparison `a > b`. -/
def strGt (a b : String) : Bool := charsLt b.data a.data

/-- The effective end date of the `ecfr_compare_title_dates` handler (line
889): `latestIssue && end_date > latestIssue ? latestIssue : end_date`,
where `latestIssue` is `meta?.latest_issue_date` (`none` when the metadata
or the field is absent; an empty string is falsy). -/
def compareEffectiveEnd (latestIssue : Option String) (end_date : String) : String :=
  match latestIssue with
  | some li => if li != "" && strGt end_date li then li else end_date
  | none => end_date

/-- The effective end date of the `ecfr_get_recent_changes` handler (line
940): the same clamp, applied to the requested end date. -/
def recentEffectiveEnd (latestIssue : Option String) (requestedEnd : String) : String :=
  match latestIssue with
  | some li => if li != "" && strGt requestedEnd li then li else requestedEnd
  | none => requestedEnd

/-- Declarative form of the first loop's output: one `added` record per
`endMap` entry whose identifier is absent from `startMap`, in `endMap`
iteration order. -/
def addedRecords (title : Nat) (end_date : String) (part : Option String)
    (startMap endMap : SMap) : List ChangeRecord :=
  List.map (fun e => addedRecord title end_date part e.1 e.2)
    (List.filter (fun e => !mapHas startMap e.1) endMap)

/-- Declarative form of the second loop's output: one `removed` record per
`startMap` entry whose identifier is absent from `endMap`, in `startMap`
iteration order. -/
def removedRecords (title : Nat) (end_date : String) (part : Option String)
    (startMap endMap : SMap) : List ChangeRecord :=
  List.map (fun e => removedRecord title end_date part e.1 e.2)
    (List.filter (fun e => !mapHas endMap e.1) startMap)

/-- The per-entry decision of the third loop, as an optional record. -/
def modifiedStep (title : Nat) (end_date : String) (part : Option String)
    (startMap : SMap) (e : String × JNode) : Option ChangeRecord :=
  match mapGet startMap e.1 with
  | some previous =>
      if previous.truthyN then
        if differs e.2 previous then
          some (modifiedRecord title end_date part e.1 e.2 previous)
        else none
      else none
  | none => none

/-- Declarative form of the third loop's output: one `modified` record per
`endMap` entry whose identifier is also in `startMap` with differing
metadata, in `endMap` iteration order. -/
def modifiedRecords (title : Nat) (end_date : String) (part : Option String)
    (startMap endMap : SMap) : List ChangeRecord :=
  List.filterMap (modifiedStep title end_date part startMap) endMap

/-- An identifier is classified as modified iff it is present in both maps
and the two node versions differ on one of the four compared fields. -/
def modifiedAt (startMap endMap : SMap) (id : String) : Bool :=
  match mapGet startMap id, mapGet endMap id with
  | some previous, some node => differs node previous
  | _, _ => false

/-- Keys of the map are pairwise distinct. -/
abbrev keysNodup (m : SMap) : Prop := (mapKeys m).Nodup

/-- A well-formed flattened section map: distinct keys, and every stored
value is an object (both hold for every `buildSectionMap` output). -/
abbrev flatMapWF (m : SMap) : Prop :=
  keysNodup m ∧ ∀ p ∈ m, p.2.isObj = true

/-- The `part` value the specification claims for every change record:
the caller-supplied part if given, else the node's hierarchy part if
non-nullish, else null. -/
def claimedPart (part : Option String) (n : JNode) : JVal :=
  match part with
  | some p => JVal.str p
  | none => coalesce n.hierarchyPart JVal.null

/-- The `part` value `part ?? null` used by removed and modified records. -/
def callerPartOrNull (part : Option String) : JVal :=
  match part with
  | some p => JVal.str p
  | none => JVal.null

/-- A concrete section node used by witnesses: identifier `id`, the given
label description, reserved flag and hierarchy part. -/
def secNode (id : String) (ld rs hp : JVal) : JNode :=
  .node (.str "section") (.str id) ld (.str "heading") rs
    (.str "2024-01-01") (.num 100) hp .notArray

/-- Witness start map: one section, not reserved. -/
def smW : SMap :=
  [("1306.04", secNode "1306.04" (.str "A") (.bool false) .undef)]

/-- Witness end map: the same section now reserved, plus a new section. -/
def emW : SMap :=
  [("1306.04", secNode "1306.04" (.str "A") (.bool true) .undef),
   ("1306.05", secNode "1306.05" (.str "B") (.bool false) .undef)]

/-- Counterexample node: a section whose hierarchy part is known. -/
def cexNode : JNode :=
  .node (.str "section") (.str "1306.04") (.str "A") .undef (.bool false)
    .undef .undef (.str "1306") .notArray

/-- Counterexample start snapshot: a title tree containing `cexNode`. -/
def cexStartTree : JNode :=
  .node (.str "title") (.num 21) .undef .undef .undef .undef .undef .undef
    (.cons cexNode .nil)

/-- Counterexample end snapshot: an empty title tree. -/
def cexEndTree : JNode :=
  .node (.str "title") (.num 21) .undef .undef .undef .undef .undef .undef .nil

/-- Witness tree for the flattening claims: a title containing a part node
(itself carrying an identifier but not of section type), a null entry and a
non-object entry among the children, an empty children array, and two
well-formed sections. -/
def treeW : JNode :=
  .node (.str "title") (.num 21) .undef .undef .undef .undef .undef .undef
    (.cons (.atom .null)
      (.cons (.node (.str "part") (.str "1306") .undef .undef .undef .undef .undef .undef
        (.cons (.atom (.num 7))
          (.cons (secNode "1306.04" (.str "A") (.bool false) (.str "1306"))
            (.cons (.node (.str "section") (.str "") .undef .undef .undef .undef .undef .undef .notArray)
              (.cons (secNode "1306.05" (.str "B") (.bool false) (.str "1306")) .nil)))))
        (.cons (.node (.str "subtitle") .undef .undef .undef .undef .undef .undef .undef .nil)
          .nil)))

/-- The added record the witnesses exercise: section 1306.05 of `emW`. -/
def recW : ChangeRecord :=
  addedRecord 21 "2025-01-01" none "1306.05"
    (secNode "1306.05" (JVal.str "B") (JVal.bool false) JVal.undef)

/-- The section node of `treeW` the flattening witness exercises. -/
def secW : JNode :=
  secNode "1306.04" (JVal.str "A") (JVal.bool false) (JVal.str "1306")

theorem foldl_push_filterMap {α β : Type} (step : List β → α → List β) (g : α → Option β)
    (hstep : ∀ acc e, step acc e = match g e with
      | some r => acc ++ [r]
      | none => acc) :
    ∀ (l : List α) (init : List β), List.foldl step init l = init ++ List.filterMap g l := by
  intro l
  induction l with
  | nil => intro init; simp
  | cons a as ih =>
      intro init
      rw [List.foldl_cons, hstep, List.filterMap_cons]
      cases h : g a with
      | none => simp only [h]; rw [ih]
      | some r => simp only [h]; rw [ih]; simp

theorem map_filter_eq_filterMap {α β : Type} (f : α → β) (p : α → Bool) (l : List α) :
    List.map f (List.filter p l)
      = List.filterMap (fun a => if p a then some (f a) else none) l := by
  induction l with
  | nil => rfl
  | cons a as ih =>
      by_cases h : p a <;>
        simp [List.filter_cons, List.filterMap_cons, h, ih]

theorem cntP_map {α β : Type} (p : β → Bool) (f : α → β) (l : List α) :
    List.countP p (List.map f l) = List.countP (fun a => p (f a)) l := by
  induction l with
  | nil => rfl
  | cons a as ih => simp [List.countP_cons, ih]

theorem cntP_filterMap {α β : Type} (g : α → Option β) (p : β → Bool) (l : List α) :
    List.countP p (List.filterMap g l)
      = List.countP (fun a => match g a with | some b => p b | none => false) l := by
  induction l with
  | nil => rfl
  | cons a as ih =>
      rw [List.filterMap_cons]
      cases h : g a with
      | none => simp [List.countP_cons, h, ih]
      | some b => simp [List.countP_cons, h, ih]

theorem cntP_filter {α : Type} (p q : α → Bool) (l : List α) :
    List.countP q (List.filter p l) = List.countP (fun a => p a && q a) l := by
  induction l with
  | nil => rfl
  | cons a as ih =>
      by_cases h : p a <;> simp [List.filter_cons, List.countP_cons, h, ih]

theorem cntP_congr {α : Type} (p q : α → Bool) (l : List α)
    (h : ∀ a ∈ l, p a = q a) : List.countP p l = List.countP q l := by
  induction l with
  | nil => rfl
  | cons a as ih =>
      simp only [List.countP_cons, h a (List.mem_cons_self a as),
        ih (fun b hb => h b (List.mem_cons_of_mem a hb))]

theorem mapGet_cons (k0 : String) (w : JNode) (m : SMap) (k : String) :
    mapGet ((k0, w) :: m) k = if k0 == k then some w else mapGet m k := by
  by_cases h : k0 == k <;> simp [mapGet, List.find?_cons, h]

theorem mapHas_iff {m : SMap} {k : String} :
    mapHas m k = true ↔ ∃ p ∈ m, p.1 = k := by
  simp [mapHas, mapGet, List.find?_isSome]

theorem mem_of_mapGet_eq_some {m : SMap} {k : String} {v : JNode}
    (h : mapGet m k = some v) : (k, v) ∈ m := by
  simp only [mapGet, Option.map_eq_some'] at h
  obtain ⟨p, hp, hv⟩ := h
  have hmem := List.mem_of_find?_eq_some hp
  have hkey := List.find?_some hp
  simp only [beq_iff_eq] at hkey
  cases p with
  | mk a b => cases hkey; cases hv; exact hmem

theorem mapGet_eq_some_of_mem {m : SMap} {k : String} {v : JNode}
    (hn : keysNodup m) (hm : (k, v) ∈ m) : mapGet m k = some v := by
  induction m with
  | nil => simp at hm
  | cons hd tl ih =>
      obtain ⟨k0, w⟩ := hd
      simp only [keysNodup, mapKeys, List.map_cons, List.nodup_cons] at hn
      rw [mapGet_cons]
      rcases List.mem_cons.mp hm with heq | htl
      · rw [Prod.mk.injEq] at heq
        simp [heq.1, heq.2]
      · have hk : k ∈ List.map Prod.fst tl :=
          List.mem_map.mpr ⟨(k, v), htl, rfl⟩
        by_cases hk0 : k0 == k
        · rw [beq_iff_eq] at hk0
          exact absurd (hk0 ▸ hk) hn.1
        · simp only [hk0, if_false]
          exact ih hn.2 htl

theorem cntP_keyed_zero (m : SMap) (Q : String × JNode → Bool) (id : String)
    (h : id ∉ mapKeys m) :
    List.countP (fun e => Q e && e.1 == id) m = 0 := by
  rw [List.countP_eq_zero]
  intro e he
  simp only [Bool.and_eq_true, beq_iff_eq, not_and]
  intro _ hkey
  exact h (hkey ▸ List.mem_map.mpr ⟨e, he, rfl⟩)

theorem cntP_keyed (m : SMap) (Q : String × JNode → Bool) (id : String)
    (hn : keysNodup m) :
    List.countP (fun e => Q e && e.1 == id) m
      = match mapGet m id with
        | some v => if Q (id, v) then 1 else 0
        | none => 0 := by
  induction m with
  | nil => rfl
  | cons hd tl ih =>
      obtain ⟨k0, w⟩ := hd
      simp only [keysNodup, mapKeys, List.map_cons, List.nodup_cons] at hn
      rw [List.countP_cons, mapGet_cons]
      by_cases hk0 : k0 == id
      · rw [beq_iff_eq] at hk0
        subst hk0
        have hz : List.countP (fun e => Q e && e.1 == k0) tl = 0 :=
          cntP_keyed_zero tl Q k0 hn.1
        simp [hz]
      · have := ih hn.2
        simp only [hk0, if_false]
        simpa [hk0] using this

theorem mem_mapSet {m : SMap} {k : String} {v : JNode} {p : String × JNode}
    (h : p ∈ mapSet m k v) : p = (k, v) ∨ p ∈ m := by
  unfold mapSet at h
  split at h
  · obtain ⟨q, hq, he⟩ := List.mem_map.mp h
    by_cases hk : q.1 == k
    · left; rw [← he]; simp [hk]
    · right; rw [← he]; simp only [hk, if_false]; exact hq
  · rcases List.mem_append.mp h with h1 | h2
    · right; exact h1
    · left; simpa using h2

theorem mapHas_mapSet_self (m : SMap) (k : String) (v : JNode) :
    mapHas (mapSet m k v) k = true := by
  rw [mapHas_iff]
  unfold mapSet
  split
  · rename_i hany
    obtain ⟨q, hq, hqk⟩ := List.any_eq_true.mp hany
    exact ⟨(k, v), List.mem_map.mpr ⟨q, hq, by simp [hqk]⟩, rfl⟩
  · exact ⟨(k, v), List.mem_append.mpr (Or.inr (by simp)), rfl⟩

theorem mapHas_mapSet_mono {m : SMap} {k0 : String}
    (h : mapHas m k0 = true) (k : String) (v : JNode) :
    mapHas (mapSet m k v) k0 = true := by
  rw [mapHas_iff] at h ⊢
  obtain ⟨q, hq, hk⟩ := h
  unfold mapSet
  split
  · by_cases hqk : q.1 == k
    · refine ⟨(k, v), List.mem_map.mpr ⟨q, hq, by simp [hqk]⟩, ?_⟩
      rw [beq_iff_eq] at hqk
      rw [← hqk, hk]
    · exact ⟨q, List.mem_map.mpr ⟨q, hq, by simp [hqk]⟩, hk⟩
  · exact ⟨q, List.mem_append.mpr (Or.inl hq), hk⟩

theorem mapKeys_mapSet_of_any (m : SMap) (k : String) (v : JNode)
    (h : List.any m (fun p => p.1 == k) = true) :
    mapKeys (mapSet m k v) = mapKeys m := by
  unfold mapSet
  simp only [h, if_true, mapKeys, List.map_map]
  apply List.map_congr_left
  intro p _
  by_cases hp : p.1 == k
  · simp only [Function.comp, hp, if_true]
    rw [beq_iff_eq] at hp
    exact hp.symm
  · simp [Function.comp, hp]

theorem keysNodup_mapSet {m : SMap} (hn : keysNodup m) (k : String) (v : JNode) :
    keysNodup (mapSet m k v) := by
  by_cases h : List.any m (fun p => p.1 == k) = true
  · unfold keysNodup
    rw [mapKeys_mapSet_of_any m k v h]
    exact hn
  · unfold mapSet
    rw [if_neg h]
    unfold keysNodup mapKeys at hn ⊢
    rw [List.map_append]
    simp only [List.map_cons, List.map_nil]
    rw [List.nodup_append]
    refine ⟨hn, List.nodup_singleton k, ?_⟩
    intro x hx hxk
    simp only [List.mem_singleton] at hxk
    subst hxk
    obtain ⟨q, hq, hqk⟩ := List.mem_map.mp hx
    exact h (List.any_eq_true.mpr ⟨q, hq, by simp [hqk]⟩)

mutual
theorem mem_collectSections : ∀ (n : JNode) (m : SMap) (p : String × JNode),
    p ∈ collectSections n m →
    p ∈ m ∨ (isSectionEntry p.2 = true ∧ p.1 = p.2.identifier.toStr ∧ p.2 ∈ subnodes n)
  | .atom v, m, p, h => Or.inl (by simpa [collectSections] using h)
  | .node ty id ld lb rs ro sz hp cs, m, p, h => by
      simp only [collectSections] at h
      rcases mem_collectChildren cs _ p h with h1 | h2
      · by_cases hg : (ty == JVal.str "section" && id.truthy) = true
        · rw [if_pos hg] at h1
          rcases mem_mapSet h1 with he | hm
          · right
            rw [he]
            refine ⟨?_, ?_, ?_⟩
            · simpa [isSectionEntry, JNode.type, JNode.identifier] using hg
            · simp [JNode.identifier]
            · simp [subnodes]
          · exact Or.inl hm
        · rw [if_neg hg] at h1
          exact Or.inl h1
      · right
        refine ⟨h2.1, h2.2.1, ?_⟩
        simp only [subnodes, List.mem_cons]
        exact Or.inr h2.2.2

theorem mem_collectChildren : ∀ (cs : JChildren) (m : SMap) (p : String × JNode),
    p ∈ collectChildren cs m →
    p ∈ m ∨ (isSectionEntry p.2 = true ∧ p.1 = p.2.identifier.toStr ∧ p.2 ∈ subnodesChildren cs)
  | .notArray, m, p, h => Or.inl (by simpa [collectChildren] using h)
  | .nil, m, p, h => Or.inl (by simpa [collectChildren] using h)
  | .cons c rest, m, p, h => by
      simp only [collectChildren] at h
      rcases mem_collectChildren rest _ p h with h1 | h2
      · rcases mem_collectSections c m p h1 with h3 | h4
        · exact Or.inl h3
        · right
          refine ⟨h4.1, h4.2.1, ?_⟩
          simp only [subnodesChildren, List.mem_append]
          exact Or.inl h4.2.2
      · right
        refine ⟨h2.1, h2.2.1, ?_⟩
        simp only [subnodesChildren, List.mem_append]
        exact Or.inr h2.2.2
end

mutual
theorem has_collectSections_mono : ∀ (n : JNode) (m : SMap) (k : String),
    mapHas m k = true → mapHas (collectSections n m) k = true
  | .atom _, _, _, h => by simpa [collectSections] using h
  | .node ty id ld lb rs ro sz hp cs, m, k, h => by
      simp only [collectSections]
      apply has_collectChildren_mono
      by_cases hg : (ty == JVal.str "section" && id.truthy) = true
      · rw [if_pos hg]
        exact mapHas_mapSet_mono h _ _
      · rw [if_neg hg]
        exact h

theorem has_collectChildren_mono : ∀ (cs : JChildren) (m : SMap) (k : String),
    mapHas m k = true → mapHas (collectChildren cs m) k = true
  | .notArray, _, _, h => by simpa [collectChildren] using h
  | .nil, _, _, h => by simpa [collectChildren] using h
  | .cons c rest, m, k, h => by
      simp only [collectChildren]
      exact has_collectChildren_mono rest _ k (has_collectSections_mono c m k h)
end

mutual
theorem complete_collectSections : ∀ (n : JNode) (m : SMap) (n0 : JNode),
    n0 ∈ subnodes n → isSectionEntry n0 = true →
    mapHas (collectSections n m) n0.identifier.toStr = true
  | .atom v, m, n0, hmem, hsec => by
      simp only [subnodes, List.mem_singleton] at hmem
      subst hmem
      simp [isSectionEntry, JNode.type] at hsec
  | .node ty id ld lb rs ro sz hp cs, m, n0, hmem, hsec => by
      simp only [subnodes, List.mem_cons] at hmem
      rcases hmem with he | hc
      · subst he
        simp only [collectSections]
        apply has_collectChildren_mono
        have hg : (ty == JVal.str "section" && id.truthy) = true := by
          simpa [isSectionEntry, JNode.type, JNode.identifier] using hsec
        rw [if_pos hg]
        simpa [JNode.identifier] using
          mapHas_mapSet_self m (JVal.toStr id) (.node ty id ld lb rs ro sz hp cs)
      · simp only [collectSections]
        exact complete_collectChildren cs _ n0 hc hsec

theorem complete_collectChildren : ∀ (cs : JChildren) (m : SMap) (n0 : JNode),
    n0 ∈ subnodesChildren cs → isSectionEntry n0 = true →
    mapHas (collectChildren cs m) n0.identifier.toStr = true
  | .notArray, _, _, hmem, _ => by simp [subnodesChildren] at hmem
  | .nil, _, _, hmem, _ => by simp [subnodesChildren] at hmem
  | .cons c rest, m, n0, hmem, hsec => by
      simp only [subnodesChildren, List.mem_append] at hmem
      simp only [collectChildren]
      rcases hmem with h1 | h2
      · exact has_collectChildren_mono rest _ _ (complete_collectSections c m n0 h1 hsec)
      · exact complete_collectChildren rest _ n0 h2 hsec
end

mutual
theorem keysNodup_collectSections : ∀ (n : JNode) (m : SMap),
    keysNodup m → keysNodup (collectSections n m)
  | .atom _, _, h => by simpa [collectSections] using h
  | .node ty id ld lb rs ro sz hp cs, m, h => by
      simp only [collectSections]
      apply keysNodup_collectChildren
      by_cases hg : (ty == JVal.str "section" && id.truthy) = true
      · rw [if_pos hg]
        exact keysNodup_mapSet h _ _
      · rw [if_neg hg]
        exact h

theorem keysNodup_collectChildren : ∀ (cs : JChildren) (m : SMap),
    keysNodup m → keysNodup (collectChildren cs m)
  | .notArray, _, h => by simpa [collectChildren] using h
  | .nil, _, h => by simpa [collectChildren] using h
  | .cons c rest, m, h => by
      simp only [collectChildren]
      exact keysNodup_collectChildren rest _ (keysNodup_collectSections c m h)
end

theorem isObj_of_isSectionEntry {n : JNode} (h : isSectionEntry n = true) :
    n.isObj = true := by
  cases n with
  | atom v => simp [isSectionEntry, JNode.type] at h
  | node ty id ld lb rs ro sz hp cs => rfl

theorem flatMapWF_buildSectionMap (t : JNode) : flatMapWF (buildSectionMap t) := by
  constructor
  · exact keysNodup_collectSections t [] (by simp [keysNodup, mapKeys])
  · intro p hp
    rcases mem_collectSections t [] p hp with h | h
    · simp at h
    · exact isObj_of_isSectionEntry h.1

theorem addedLoop_eq (title : Nat) (ed : String) (part : Option String)
    (sm em : SMap) (init : List ChangeRecord) :
    List.foldl (fun acc e =>
        if !mapHas sm e.1 then acc ++ [addedRecord title ed part e.1 e.2] else acc)
      init em
      = init ++ addedRecords title ed part sm em := by
  rw [foldl_push_filterMap _
    (fun e => if !mapHas sm e.1 then some (addedRecord title ed part e.1 e.2) else none)
    (by intro acc e; by_cases h : mapHas sm e.1 <;> simp [h]) em init]
  rw [addedRecords, map_filter_eq_filterMap]

theorem removedLoop_eq (title : Nat) (ed : String) (part : Option String)
    (sm em : SMap) (init : List ChangeRecord) :
    List.foldl (fun acc e =>
        if !mapHas em e.1 then acc ++ [removedRecord title ed part e.1 e.2] else acc)
      init sm
      = init ++ removedRecords title ed part sm em := by
  rw [foldl_push_filterMap _
    (fun e => if !mapHas em e.1 then some (removedRecord title ed part e.1 e.2) else none)
    (by intro acc e; by_cases h : mapHas em e.1 <;> simp [h]) sm init]
  rw [removedRecords, map_filter_eq_filterMap]

theorem modifiedLoop_eq (title : Nat) (ed : String) (part : Option String)
    (sm em : SMap) (init : List ChangeRecord) :
    List.foldl (fun acc e =>
        match mapGet sm e.1 with
        | some previous =>
            if previous.truthyN then
              if differs e.2 previous then
                acc ++ [modifiedRecord title ed part e.1 e.2 previous]
              else acc
            else acc
        | none => acc)
      init em
      = init ++ modifiedRecords title ed part sm em := by
  rw [foldl_push_filterMap _ (modifiedStep title ed part sm) ?hstep em init]
  · rfl
  case hstep =>
    intro acc e
    rw [modifiedStep]
    rcases mapGet sm e.1 with _ | previous
    · rfl
    · by_cases h1 : previous.truthyN = true
      · by_cases h2 : differs e.2 previous = true <;> simp [h1, h2]
      · simp [h1]

theorem diffChangeList_eq (title : Nat) (ed : String) (part : Option String)
    (sm em : SMap) :
    diffChangeList title ed part sm em
      = addedRecords title ed part sm em ++ removedRecords title ed part sm em
        ++ modifiedRecords title ed part sm em := by
  simp only [diffChangeList]
  rw [addedLoop_eq, removedLoop_eq, modifiedLoop_eq]
  simp

theorem modifiedStep_eq_some {title : Nat} {ed : String} {part : Option String}
    {sm : SMap} {e : String × JNode} {c : ChangeRecord}
    (h : modifiedStep title ed part sm e = some c) :
    ∃ previous, mapGet sm e.1 = some previous ∧ previous.truthyN = true
      ∧ differs e.2 previous = true
      ∧ c = modifiedRecord title ed part e.1 e.2 previous := by
  rw [modifiedStep] at h
  split at h
  · rename_i previous hget
    split at h
    · rename_i h1
      split at h
      · rename_i h2
        exact ⟨previous, hget, h1, h2, (Option.some_inj.mp h).symm⟩
      · simp at h
    · simp at h
  · simp at h

theorem diffChangeList_types (title : Nat) (ed : String) (part : Option String)
    (sm em : SMap) :
    ∀ c ∈ diffChangeList title ed part sm em,
      c.type = "added" ∨ c.type = "removed" ∨ c.type = "modified" := by
  intro c hc
  rw [diffChangeList_eq] at hc
  rcases List.mem_append.mp hc with hc12 | hc3
  · rcases List.mem_append.mp hc12 with hc1 | hc2
    · obtain ⟨e, _, he⟩ := List.mem_map.mp hc1
      rw [← he]
      exact Or.inl rfl
    · obtain ⟨e, _, he⟩ := List.mem_map.mp hc2
      rw [← he]
      exact Or.inr (Or.inl rfl)
  · obtain ⟨e, _, he⟩ := List.mem_filterMap.mp hc3
    obtain ⟨previous, _, _, _, hc⟩ := modifiedStep_eq_some he
    rw [hc]
    exact Or.inr (Or.inr rfl)

theorem cntP_three_partition (l : List ChangeRecord) (p : ChangeRecord → Bool)
    (h : ∀ c ∈ l, c.type = "added" ∨ c.type = "removed" ∨ c.type = "modified") :
    List.countP p l
      = List.countP (fun c => p c && c.type == "added") l
        + List.countP (fun c => p c && c.type == "removed") l
        + List.countP (fun c => p c && c.type == "modified") l := by
  induction l with
  | nil => rfl
  | cons a as ih =>
      have ha := h a (List.mem_cons_self a as)
      have ih2 := ih (fun c hc => h c (List.mem_cons_of_mem a hc))
      simp only [List.countP_cons]
      rcases ha with h1 | h1 | h1 <;> by_cases hp : p a = true <;>
        simp [h1, hp, ih2] <;> omega

theorem truthyN_of_isObj {n : JNode} (h : n.isObj = true) : n.truthyN = true := by
  cases n with
  | atom v => simp [JNode.isObj] at h
  | node ty id ld lb rs ro sz hp cs => rfl

theorem mem_diffFromMaps_snd {title : Nat} {ed : String} {part : Option String}
    {change_types : Option (List String)} {sm em : SMap} {c : ChangeRecord}
    (hc : c ∈ (diffFromMaps title ed part change_types sm em).2) :
    c ∈ diffChangeList title ed part sm em := by
  rcases change_types with _ | l
  · exact hc
  · exact (List.mem_filter.mp hc).1

theorem three_filter_length (L : List ChangeRecord)
    (h : ∀ c ∈ L, c.type = "added" ∨ c.type = "removed" ∨ c.type = "modified") :
    (List.filter (fun c => c.type == "added") L).length
      + (List.filter (fun c => c.type == "removed") L).length
      + (List.filter (fun c => c.type == "modified") L).length
      = L.length := by
  have hp := cntP_three_partition L (fun _ => true) h
  have e0 : List.countP (fun _ => true) L = L.length := by simp
  have e1 : List.countP (fun c => (fun _ => true) c && c.type == "added") L
      = (List.filter (fun c => c.type == "added") L).length := by
    rw [show (fun c : ChangeRecord => (fun _ : ChangeRecord => true) c && c.type == "added")
        = (fun c : ChangeRecord => c.type == "added") from by funext a; simp]
    rw [List.countP_eq_length_filter]
  have e2 : List.countP (fun c => (fun _ => true) c && c.type == "removed") L
      = (List.filter (fun c => c.type == "removed") L).length := by
    rw [show (fun c : ChangeRecord => (fun _ : ChangeRecord => true) c && c.type == "removed")
        = (fun c : ChangeRecord => c.type == "removed") from by funext a; simp]
    rw [List.countP_eq_length_filter]
  have e3 : List.countP (fun c => (fun _ => true) c && c.type == "modified") L
      = (List.filter (fun c => c.type == "modified") L).length := by
    rw [show (fun c : ChangeRecord => (fun _ : ChangeRecord => true) c && c.type == "modified")
        = (fun c : ChangeRecord => c.type == "modified") from by funext a; simp]
    rw [List.countP_eq_length_filter]
  rw [e0, e1, e2, e3] at hp
  omega

/-- C7: `rangesOverlap` substitutes the far-past sentinel for an absent item
start and the far-future sentinel for an absent item end, returns true
whenever both filter bounds are open, and on the two concrete cases returns
`true` and `false` respectively. -/
theorem rangesOverlap_claim :
    (∀ fs fe ie, overlapCore fs fe none ie = overlapCore fs fe (some farPast) ie)
  ∧ (∀ fs fe is0, overlapCore fs fe is0 none = overlapCore fs fe is0 (some farFuture))
  ∧ (∀ itemStart itemEnd, rangesOverlap none none itemStart itemEnd = true)
  ∧ (∀ is0 ie0, overlapCore none none is0 ie0 = true)
  ∧ rangesOverlap (some "2024-01-01") (some "2024-06-01") none (some "2024-02-01") = true
  ∧ rangesOverlap (some "2024-01-01") (some "2024-02-01") (some "2024-03-01") none = false := by
  refine ⟨?_, ?_, ?_, ?_, by decide, by decide⟩
  · intro fs fe ie; rfl
  · intro fs fe is0; rfl
  · intro a b; rfl
  · intro a b; rfl

/-- C5: both composite handlers clamp the requested end date down to
`latest_issue_date` exactly when that date is known (a non-empty string) and
the requested end date is lexicographically greater; otherwise the requested
end date is used unchanged, and in particular a request of `2025-06-01`
against a latest issue date of `2025-01-01` is clamped to `2025-01-01`. -/
theorem clamp_end_date :
    (∀ li ed, li ≠ "" → strGt ed li = true →
        compareEffectiveEnd (some li) ed = li ∧ recentEffectiveEnd (some li) ed = li)
  ∧ (∀ li ed, strGt ed li = false →
        compareEffectiveEnd (some li) ed = ed ∧ recentEffectiveEnd (some li) ed = ed)
  ∧ (∀ ed, compareEffectiveEnd none ed = ed ∧ recentEffectiveEnd none ed = ed)
  ∧ compareEffectiveEnd (some "2025-01-01") "2025-06-01" = "2025-01-01"
  ∧ recentEffectiveEnd (some "2025-01-01") "2025-06-01" = "2025-01-01" := by
  refine ⟨?_, ?_, ?_, by decide, by decide⟩
  · intro li ed h1 h2
    constructor <;> simp [compareEffectiveEnd, recentEffectiveEnd, h1, h2, bne_iff_ne]
  · intro li ed h2
    constructor <;> simp [compareEffectiveEnd, recentEffectiveEnd, h2]
  · intro ed
    exact ⟨rfl, rfl⟩

/-- Witness for C5 at the concrete clamp scenario. -/
theorem clamp_end_date_witness :
    ("2025-01-01" : String) ≠ "" ∧ strGt "2025-06-01" "2025-01-01" = true
    ∧ (compareEffectiveEnd (some "2025-01-01") "2025-06-01" = "2025-01-01"
        ∧ recentEffectiveEnd (some "2025-01-01") "2025-06-01" = "2025-01-01") :=
  ⟨by decide, by decide,
    clamp_end_date.1 "2025-01-01" "2025-06-01" (by decide) (by decide)⟩

/-- C10: a provided-but-empty `change_types` list filters out every change
record: the result is an empty change list and all four summary counts are
zero, for every pair of section maps. -/
theorem diff_empty_change_types (title : Nat) (ed : String) (part : Option String)
    (sm em : SMap) :
    diffFromMaps title ed part (some []) sm em
      = ({ total_changes := 0, sections_added := 0, sections_removed := 0,
           sections_modified := 0 }, []) := by
  simp [diffFromMaps]

/-- C9: diffing a structure document against itself yields no `added`,
`removed` or `modified` records and a summary of all zero counts, for every
change-type filter. -/
theorem diff_identical_structures (title : Nat) (ed : String) (part : Option String)
    (change_types : Option (List String)) (t : JNode) :
    diffTitleStructures title ed part change_types t t
      = ({ total_changes := 0, sections_added := 0, sections_removed := 0,
           sections_modified := 0 }, []) := by
  have hwf := flatMapWF_buildSectionMap t
  have hch : diffChangeList title ed part (buildSectionMap t) (buildSectionMap t) = [] := by
    rw [diffChangeList_eq]
    have hadd : addedRecords title ed part (buildSectionMap t) (buildSectionMap t) = [] := by
      rw [addedRecords, List.filter_eq_nil_iff.mpr, List.map_nil]
      intro e he
      simp [mapHas_iff.mpr ⟨e, he, rfl⟩]
    have hrem : removedRecords title ed part (buildSectionMap t) (buildSectionMap t) = [] := by
      rw [removedRecords, List.filter_eq_nil_iff.mpr, List.map_nil]
      intro e he
      simp [mapHas_iff.mpr ⟨e, he, rfl⟩]
    have hmod : modifiedRecords title ed part (buildSectionMap t) (buildSectionMap t) = [] := by
      rw [modifiedRecords, List.filterMap_eq_nil_iff.mpr]
      intro e he
      rw [modifiedStep]
      have hget : mapGet (buildSectionMap t) e.1 = some e.2 :=
        mapGet_eq_some_of_mem hwf.1 he
      rw [hget]
      have htr : e.2.truthyN = true := truthyN_of_isObj (hwf.2 e he)
      simp [htr, differs]
    rw [hadd, hrem, hmod]
    rfl
  rw [diffTitleStructures]
  rcases change_types with _ | l <;> simp [diffFromMaps, hch]

/-- C8: under every change-type filter, the three per-type summary counts
add up to `total_changes`. -/
theorem diff_summary_additivity (title : Nat) (ed : String) (part : Option String)
    (change_types : Option (List String)) (sm em : SMap) :
    (diffFromMaps title ed part change_types sm em).1.sections_added
      + (diffFromMaps title ed part change_types sm em).1.sections_removed
      + (diffFromMaps title ed part change_types sm em).1.sections_modified
      = (diffFromMaps title ed part change_types sm em).1.total_changes := by
  have hmem : ∀ c ∈ (diffFromMaps title ed part change_types sm em).2,
      c.type = "added" ∨ c.type = "removed" ∨ c.type = "modified" :=
    fun c hc => diffChangeList_types title ed part sm em c (mem_diffFromMaps_snd hc)
  have h1 : (diffFromMaps title ed part change_types sm em).1.total_changes
      = (diffFromMaps title ed part change_types sm em).2.length := rfl
  have h2 : (diffFromMaps title ed part change_types sm em).1.sections_added
      = (List.filter (fun c => c.type == "added")
          (diffFromMaps title ed part change_types sm em).2).length := rfl
  have h3 : (diffFromMaps title ed part change_types sm em).1.sections_removed
      = (List.filter (fun c => c.type == "removed")
          (diffFromMaps title ed part change_types sm em).2).length := rfl
  have h4 : (diffFromMaps title ed part change_types sm em).1.sections_modified
      = (List.filter (fun c => c.type == "modified")
          (diffFromMaps title ed part change_types sm em).2).length := rfl
  rw [h1, h2, h3, h4]
  exact three_filter_length _ hmem

/-- C4: the unfiltered change list is exactly the `added` records in
`endMap` iteration order, then the `removed` records in `startMap` iteration
order, then the `modified` records in `endMap` iteration order, with no
further sorting; filtering returns a sublist, preserving that relative
order. -/
theorem diff_change_ordering (title : Nat) (ed : String) (part : Option String)
    (sm em : SMap) :
    diffChangeList title ed part sm em
      = addedRecords title ed part sm em ++ removedRecords title ed part sm em
        ++ modifiedRecords title ed part sm em
  ∧ ∀ change_types, List.Sublist (diffFromMaps title ed part change_types sm em).2
      (diffChangeList title ed part sm em) := by
  refine ⟨diffChangeList_eq title ed part sm em, ?_⟩
  intro change_types
  rcases change_types with _ | l
  · exact List.Sublist.refl _
  · exact List.filter_sublist _

theorem isSome_modifiedStep (title : Nat) (ed : String) (part : Option String)
    (sm : SMap) (hs : flatMapWF sm) (id : String) (v : JNode) :
    (modifiedStep title ed part sm (id, v)).isSome
      = (match mapGet sm id with
         | some prev => differs v prev
         | none => false) := by
  rcases hgs : mapGet sm id with _ | prev
  · simp [modifiedStep, hgs]
  · have htr : prev.truthyN = true :=
      truthyN_of_isObj (hs.2 _ (mem_of_mapGet_eq_some hgs))
    by_cases hd : differs v prev = true <;> simp [modifiedStep, hgs, htr, hd]

/-- C1: over any pair of well-formed flattened section maps, the unfiltered
change list contains exactly one `added` record per identifier present only
in `endMap`, exactly one `removed` record per identifier present only in
`startMap`, exactly one `modified` record per identifier present in both
whose four compared fields are not all strictly equal, and records of no
other type; in particular an identifier present in both maps with all four
fields equal contributes no record at all. -/
theorem diff_change_classification (title : Nat) (ed : String) (part : Option String)
    (sm em : SMap) (hs : flatMapWF sm) (he : flatMapWF em) (id : String) :
    List.countP (fun c => c.section_ == id && c.type == "added")
        (diffChangeList title ed part sm em)
      = (if mapHas em id && !mapHas sm id then 1 else 0)
  ∧ List.countP (fun c => c.section_ == id && c.type == "removed")
        (diffChangeList title ed part sm em)
      = (if mapHas sm id && !mapHas em id then 1 else 0)
  ∧ List.countP (fun c => c.section_ == id && c.type == "modified")
        (diffChangeList title ed part sm em)
      = (if modifiedAt sm em id then 1 else 0)
  ∧ ∀ c ∈ diffChangeList title ed part sm em,
      c.type = "added" ∨ c.type = "removed" ∨ c.type = "modified" := by
  refine ⟨?_, ?_, ?_, diffChangeList_types title ed part sm em⟩
  · rw [diffChangeList_eq, List.countP_append, List.countP_append]
    have hrem0 : List.countP (fun c => c.section_ == id && c.type == "added")
        (removedRecords title ed part sm em) = 0 := by
      rw [List.countP_eq_zero]
      intro c hc
      obtain ⟨e, _, hce⟩ := List.mem_map.mp hc
      rw [← hce]
      simp [removedRecord]
    have hmod0 : List.countP (fun c => c.section_ == id && c.type == "added")
        (modifiedRecords title ed part sm em) = 0 := by
      rw [List.countP_eq_zero]
      intro c hc
      obtain ⟨e, _, hstep⟩ := List.mem_filterMap.mp hc
      obtain ⟨prev, _, _, _, hce⟩ := modifiedStep_eq_some hstep
      rw [hce]
      simp [modifiedRecord]
    have hmain : List.countP (fun c => c.section_ == id && c.type == "added")
        (addedRecords title ed part sm em)
        = (if mapHas em id && !mapHas sm id then 1 else 0) := by
      rw [addedRecords, cntP_map, cntP_filter]
      rw [cntP_congr _ (fun e => (!mapHas sm e.1) && e.1 == id) em
        (by intro e _; simp [addedRecord])]
      rw [cntP_keyed em _ id he.1]
      rcases hg : mapGet em id with _ | v
      · have hh : mapHas em id = false := by simp [mapHas, hg]
        simp [hh]
      · have hh : mapHas em id = true := by simp [mapHas, hg]
        simp only [hg, hh]
        by_cases hsm : mapHas sm id = true <;> simp [hsm]
    rw [hmain, hrem0, hmod0]
    omega
  · rw [diffChangeList_eq, List.countP_append, List.countP_append]
    have hadd0 : List.countP (fun c => c.section_ == id && c.type == "removed")
        (addedRecords title ed part sm em) = 0 := by
      rw [List.countP_eq_zero]
      intro c hc
      obtain ⟨e, _, hce⟩ := List.mem_map.mp hc
      rw [← hce]
      simp [addedRecord]
    have hmod0 : List.countP (fun c => c.section_ == id && c.type == "removed")
        (modifiedRecords title ed part sm em) = 0 := by
      rw [List.countP_eq_zero]
      intro c hc
      obtain ⟨e, _, hstep⟩ := List.mem_filterMap.mp hc
      obtain ⟨prev, _, _, _, hce⟩ := modifiedStep_eq_some hstep
      rw [hce]
      simp [modifiedRecord]
    have hmain : List.countP (fun c => c.section_ == id && c.type == "removed")
        (removedRecords title ed part sm em)
        = (if mapHas sm id && !mapHas em id then 1 else 0) := by
      rw [removedRecords, cntP_map, cntP_filter]
      rw [cntP_congr _ (fun e => (!mapHas em e.1) && e.1 == id) sm
        (by intro e _; simp [removedRecord])]
      rw [cntP_keyed sm _ id hs.1]
      rcases hg : mapGet sm id with _ | v
      · have hh : mapHas sm id = false := by simp [mapHas, hg]
        simp [hh]
      · have hh : mapHas sm id = true := by simp [mapHas, hg]
        simp only [hg, hh]
        by_cases hem2 : mapHas em id = true <;> simp [hem2]
    rw [hmain, hadd0, hmod0]
    omega
  · rw [diffChangeList_eq, List.countP_append, List.countP_append]
    have hadd0 : List.countP (fun c => c.section_ == id && c.type == "modified")
        (addedRecords title ed part sm em) = 0 := by
      rw [List.countP_eq_zero]
      intro c hc
      obtain ⟨e, _, hce⟩ := List.mem_map.mp hc
      rw [← hce]
      simp [addedRecord]
    have hrem0 : List.countP (fun c => c.section_ == id && c.type == "modified")
        (removedRecords title ed part sm em) = 0 := by
      rw [List.countP_eq_zero]
      intro c hc
      obtain ⟨e, _, hce⟩ := List.mem_map.mp hc
      rw [← hce]
      simp [removedRecord]
    have hmain : List.countP (fun c => c.section_ == id && c.type == "modified")
        (modifiedRecords title ed part sm em)
        = (if modifiedAt sm em id then 1 else 0) := by
      rw [modifiedRecords, cntP_filterMap]
      rw [cntP_congr _
        (fun e => (modifiedStep title ed part sm e).isSome && e.1 == id) em ?hq]
      · rw [cntP_keyed em _ id he.1]
        rcases hge : mapGet em id with _ | v
        · have hma : modifiedAt sm em id = false := by
            rcases hgs : mapGet sm id with _ | prev <;> simp [modifiedAt, hgs, hge]
          simp [hge, hma]
        · simp only [hge]
          rw [isSome_modifiedStep title ed part sm hs id v]
          rcases hgs : mapGet sm id with _ | prev <;>
            simp [modifiedAt, hgs, hge]
      case hq =>
        intro e _
        rcases hstep : modifiedStep title ed part sm e with _ | b
        · simp [hstep]
        · obtain ⟨prev, _, _, _, hb⟩ := modifiedStep_eq_some hstep
          subst hb
          simp [hstep, modifiedRecord]
    rw [hmain, hadd0, hrem0]
    omega

/-- Witness for C1 on the concrete map pair `smW`/`emW` at the identifier
of the newly added section. -/
theorem diff_change_classification_witness :
    flatMapWF smW ∧ flatMapWF emW
    ∧ (List.countP (fun c => c.section_ == "1306.05" && c.type == "added")
          (diffChangeList 21 "2025-01-01" none smW emW)
        = (if mapHas emW "1306.05" && !mapHas smW "1306.05" then 1 else 0)
      ∧ List.countP (fun c => c.section_ == "1306.05" && c.type == "removed")
          (diffChangeList 21 "2025-01-01" none smW emW)
        = (if mapHas smW "1306.05" && !mapHas emW "1306.05" then 1 else 0)
      ∧ List.countP (fun c => c.section_ == "1306.05" && c.type == "modified")
          (diffChangeList 21 "2025-01-01" none smW emW)
        = (if modifiedAt smW emW "1306.05" then 1 else 0)
      ∧ ∀ c ∈ diffChangeList 21 "2025-01-01" none smW emW,
          c.type = "added" ∨ c.type = "removed" ∨ c.type = "modified") :=
  ⟨by decide, by decide,
    diff_change_classification 21 "2025-01-01" none smW emW
      (by decide) (by decide) "1306.05"⟩

/-- C2: with a provided `change_types` filter the returned change list is
exactly the type-filtered unfiltered list (so every returned record's type
is in the filter), with no filter it is the unfiltered list unchanged, and
under every filter all four summary counts are computed over the returned
(filtered) list. -/
theorem diff_filter_correct (title : Nat) (ed : String) (part : Option String)
    (sm em : SMap) :
    (∀ cts, (diffFromMaps title ed part (some cts) sm em).2
        = List.filter (fun c => cts.contains c.type) (diffChangeList title ed part sm em)
      ∧ ∀ c ∈ (diffFromMaps title ed part (some cts) sm em).2, c.type ∈ cts)
  ∧ (diffFromMaps title ed part none sm em).2 = diffChangeList title ed part sm em
  ∧ ∀ change_types,
      ((diffFromMaps title ed part change_types sm em).1.total_changes
          = (diffFromMaps title ed part change_types sm em).2.length
      ∧ (diffFromMaps title ed part change_types sm em).1.sections_added
          = (List.filter (fun c => c.type == "added")
              (diffFromMaps title ed part change_types sm em).2).length
      ∧ (diffFromMaps title ed part change_types sm em).1.sections_removed
          = (List.filter (fun c => c.type == "removed")
              (diffFromMaps title ed part change_types sm em).2).length
      ∧ (diffFromMaps title ed part change_types sm em).1.sections_modified
          = (List.filter (fun c => c.type == "modified")
              (diffFromMaps title ed part change_types sm em).2).length) := by
  refine ⟨?_, rfl, fun _ => ⟨rfl, rfl, rfl, rfl⟩⟩
  intro cts
  refine ⟨rfl, ?_⟩
  intro c hc
  have h2 : cts.contains c.type = true := (List.mem_filter.mp hc).2
  simpa using h2

/-- Witness for C2: the added record for section 1306.05 is in the filtered
result for filter `["added"]` and its type is in the filter. -/
theorem diff_filter_correct_witness :
    (recW ∈ (diffFromMaps 21 "2025-01-01" none (some ["added"]) smW emW).2)
    ∧ recW.type ∈ ["added"] :=
  ⟨by decide,
    ((diff_filter_correct 21 "2025-01-01" none smW emW).1 ["added"]).2 recW (by decide)⟩

/-- C3 counterexample: for the concrete snapshots `cexStartTree` (one
section whose hierarchy part is `"1306"`) and `cexEndTree` (empty), with no
caller-supplied part, the differ emits a single `removed` record whose
`part` is `null`, whereas the claim's formula (caller part, else hierarchy
part, else null) predicts `"1306"`. -/
theorem part_field_spec_counterexample :
    (List.map (fun c => (c.type, c.section_, c.part))
        (diffTitleStructures 21 "2025-01-01" none none cexStartTree cexEndTree).2
      = [("removed", "1306.04", JVal.null)])
    ∧ cexNode.hierarchyPart = JVal.str "1306"
    ∧ claimedPart none cexNode = JVal.str "1306"
    ∧ JVal.null ≠ JVal.str "1306" := by decide

/-- C3 amended: only `added` records take their `part` from the caller's
part, else the end-map node's hierarchy part, else null; `removed` and
`modified` records take the caller's part, else null, never consulting the
node hierarchy. -/
theorem part_field_amended (title : Nat) (ed : String) (part : Option String)
    (sm em : SMap) (hem : keysNodup em) :
    ∀ c ∈ diffChangeList title ed part sm em,
      (c.type = "added" →
        ∃ n, mapGet em c.section_ = some n ∧ c.part = claimedPart part n)
      ∧ (c.type = "removed" ∨ c.type = "modified" →
          c.part = callerPartOrNull part) := by
  intro c hc
  rw [diffChangeList_eq] at hc
  rcases List.mem_append.mp hc with hc12 | hc3
  · rcases List.mem_append.mp hc12 with hc1 | hc2
    · obtain ⟨e, he, hce⟩ := List.mem_map.mp hc1
      have hmem : e ∈ em := (List.mem_filter.mp he).1
      constructor
      · intro _
        refine ⟨e.2, ?_, ?_⟩
        · rw [← hce]
          exact mapGet_eq_some_of_mem hem hmem
        · rw [← hce]
          cases part <;> rfl
      · intro htyp
        rw [← hce] at htyp
        rcases htyp with h | h <;> simp [addedRecord] at h
    · obtain ⟨e, he, hce⟩ := List.mem_map.mp hc2
      constructor
      · intro htyp
        rw [← hce] at htyp
        simp [removedRecord] at htyp
      · intro _
        rw [← hce]
        cases part <;> rfl
  · obtain ⟨e, he, hstep⟩ := List.mem_filterMap.mp hc3
    obtain ⟨prev, _, _, _, hb⟩ := modifiedStep_eq_some hstep
    subst hb
    constructor
    · intro htyp
      simp [modifiedRecord] at htyp
    · intro _
      cases part <;> rfl

/-- Witness for amended C3 on the added record of the `smW`/`emW` pair. -/
theorem part_field_amended_witness :
    keysNodup emW
    ∧ recW ∈ diffChangeList 21 "2025-01-01" none smW emW
    ∧ ((recW.type = "added" →
          ∃ n, mapGet emW recW.section_ = some n ∧ recW.part = claimedPart none n)
      ∧ (recW.type = "removed" ∨ recW.type = "modified" →
          recW.part = callerPartOrNull none)) :=
  ⟨by decide, by decide,
    part_field_amended 21 "2025-01-01" none smW emW (by decide) recW (by decide)⟩

/-- C6: flattening is total on arbitrary trees (null nodes, non-object
nodes, missing or empty children arrays included) and exact: every entry of
the section map is a node of the tree whose `type` is `"section"` and whose
`identifier` is truthy (for a string identifier: non-empty), keyed by its
stringified identifier; conversely every such node anywhere in the tree has
its key in the map, children being descended regardless of each node's own
type. -/
theorem flatten_exact (t : JNode) :
    (∀ k v, (k, v) ∈ buildSectionMap t →
        isSectionEntry v = true ∧ k = v.identifier.toStr ∧ v ∈ subnodes t)
  ∧ (∀ n ∈ subnodes t, isSectionEntry n = true →
        mapHas (buildSectionMap t) n.identifier.toStr = true)
  ∧ (∀ s : String, JVal.truthy (JVal.str s) = true ↔ s ≠ "") := by
  refine ⟨?_, ?_, ?_⟩
  · intro k v h
    rcases mem_collectSections t [] (k, v) h with h0 | h1
    · simp at h0
    · exact ⟨h1.1, h1.2.1, h1.2.2⟩
  · intro n hn hsec
    exact complete_collectSections t [] n hn hsec
  · intro s
    simp [JVal.truthy]

/-- Witness for C6 on the degenerate tree `treeW`, in both directions. -/
theorem flatten_exact_witness :
    (("1306.04", secW) ∈ buildSectionMap treeW)
    ∧ (isSectionEntry secW = true ∧ "1306.04" = secW.identifier.toStr
        ∧ secW ∈ subnodes treeW)
    ∧ (secW ∈ subnodes treeW ∧ isSectionEntry secW = true
        ∧ mapHas (buildSectionMap treeW) secW.identifier.toStr = true) :=
  ⟨by decide,
    (flatten_exact treeW).1 "1306.04" secW (by decide),
    by decide, by decide,
    (flatten_exact treeW).2.1 secW (by decide) (by decide)⟩

end EcfrMcp
